import Mathlib

set_option autoImplicit false

namespace TT

/-!
Shallow embedding of the change-detection core of `src/compare_pages.py`.

Python dictionaries are modelled as insertion-ordered association lists
(`List (α × β)`): `dictInsert` updates an existing key in place and appends a
fresh key at the end, `dictDelete` removes a key; both match CPython dict
semantics (insertion order preserved, keys unique).
-/

section Dict

variable {α β : Type} [DecidableEq α]

def dictLookup : List (α × β) → α → Option β
  | [], _ => none
  | (k, v) :: rest, a => if k = a then some v else dictLookup rest a

def dictInsert : List (α × β) → α → β → List (α × β)
  | [], a, b => [(a, b)]
  | (k, v) :: rest, a, b =>
      if k = a then (a, b) :: rest else (k, v) :: dictInsert rest a b

def dictDelete : List (α × β) → α → List (α × β)
  | [], _ => []
  | (k, v) :: rest, a =>
      if k = a then dictDelete rest a else (k, v) :: dictDelete rest a

def NodupKeys (d : List (α × β)) : Prop := (d.map Prod.fst).Nodup

theorem dictLookup_insert_self (d : List (α × β)) (a : α) (b : β) :
    dictLookup (dictInsert d a b) a = some b := by
  induction d with
  | nil => simp [dictInsert, dictLookup]
  | cons kv rest ih =>
      obtain ⟨k, v⟩ := kv
      by_cases h : k = a
      · simp [dictInsert, dictLookup, h]
      · simp [dictInsert, dictLookup, h, ih]

theorem dictLookup_insert_ne (d : List (α × β)) {a a' : α} (b : β) (h : a' ≠ a) :
    dictLookup (dictInsert d a b) a' = dictLookup d a' := by
  induction d with
  | nil => simp [dictInsert, dictLookup, Ne.symm h]
  | cons kv rest ih =>
      obtain ⟨k, v⟩ := kv
      by_cases hk : k = a
      · subst hk
        simp [dictInsert, dictLookup, Ne.symm h]
      · by_cases hk' : k = a'
        · simp [dictInsert, dictLookup, hk, hk', h]
        · simp [dictInsert, dictLookup, hk, hk', ih]

theorem dictLookup_delete_self (d : List (α × β)) (a : α) :
    dictLookup (dictDelete d a) a = none := by
  induction d with
  | nil => rfl
  | cons kv rest ih =>
      obtain ⟨k, v⟩ := kv
      by_cases h : k = a
      · simp [dictDelete, h, ih]
      · simp [dictDelete, dictLookup, h, ih]

theorem dictLookup_delete_ne (d : List (α × β)) {a a' : α} (h : a' ≠ a) :
    dictLookup (dictDelete d a) a' = dictLookup d a' := by
  induction d with
  | nil => rfl
  | cons kv rest ih =>
      obtain ⟨k, v⟩ := kv
      by_cases hk : k = a
      · subst hk
        simp [dictDelete, dictLookup, Ne.symm h, ih]
      · by_cases hk' : k = a'
        · simp [dictDelete, dictLookup, hk, hk', h]
        · simp [dictDelete, dictLookup, hk, hk', ih]

theorem mem_dictInsert {d : List (α × β)} {a : α} {b : β} {p : α × β} :
    p ∈ dictInsert d a b → p = (a, b) ∨ p ∈ d := by
  induction d with
  | nil => intro h; simpa [dictInsert] using h
  | cons kv rest ih =>
      obtain ⟨k, v⟩ := kv
      by_cases hk : k = a
      · intro h
        simp only [dictInsert, hk, if_true, List.mem_cons] at h
        rcases h with h | h
        · exact Or.inl h
        · exact Or.inr (List.mem_cons_of_mem _ h)
      · intro h
        simp only [dictInsert, hk, if_false, List.mem_cons] at h
        rcases h with h | h
        · exact Or.inr (by simp [h])
        · rcases ih h with h' | h'
          · exact Or.inl h'
          · exact Or.inr (List.mem_cons_of_mem _ h')

theorem mem_keys_dictInsert {d : List (α × β)} {a c : α} {b : β} :
    c ∈ (dictInsert d a b).map Prod.fst → c = a ∨ c ∈ d.map Prod.fst := by
  induction d with
  | nil => intro h; simpa [dictInsert] using h
  | cons kv rest ih =>
      obtain ⟨k, v⟩ := kv
      by_cases hk : k = a
      · subst hk
        intro h; simpa [dictInsert] using h
      · intro h
        simp only [dictInsert, hk, if_false, List.map_cons, List.mem_cons] at h
        rcases h with h | h
        · exact Or.inr (by simp [h])
        · rcases ih h with h' | h'
          · exact Or.inl h'
          · exact Or.inr (by simp [h'])

theorem mem_keys_dictDelete {d : List (α × β)} {a c : α} :
    c ∈ (dictDelete d a).map Prod.fst → c ∈ d.map Prod.fst := by
  induction d with
  | nil => intro h; simpa [dictDelete] using h
  | cons kv rest ih =>
      obtain ⟨k, v⟩ := kv
      by_cases hk : k = a
      · intro h
        simp only [dictDelete, hk, if_true] at h
        exact List.mem_cons_of_mem _ (ih h)
      · intro h
        simp only [dictDelete, hk, if_false, List.map_cons, List.mem_cons] at h
        rcases h with h | h
        · exact by simp [h]
        · exact List.mem_cons_of_mem _ (ih h)

theorem nodupKeys_dictInsert {d : List (α × β)} (a : α) (b : β)
    (h : NodupKeys d) : NodupKeys (dictInsert d a b) := by
  induction d with
  | nil => simp [NodupKeys, dictInsert]
  | cons kv rest ih =>
      obtain ⟨k, v⟩ := kv
      simp only [NodupKeys, List.map_cons, List.nodup_cons] at h
      by_cases hk : k = a
      · subst hk
        simp only [NodupKeys, dictInsert, if_true, List.map_cons, List.nodup_cons]
        exact ⟨h.1, h.2⟩
      · have h1 := ih h.2
        simp only [NodupKeys, dictInsert, hk, if_false, List.map_cons, List.nodup_cons]
        refine ⟨fun hc => ?_, h1⟩
        rcases mem_keys_dictInsert hc with h' | h'
        · exact hk h'
        · exact h.1 h'

theorem nodupKeys_dictDelete {d : List (α × β)} (a : α)
    (h : NodupKeys d) : NodupKeys (dictDelete d a) := by
  induction d with
  | nil => simpa [NodupKeys, dictDelete] using h
  | cons kv rest ih =>
      obtain ⟨k, v⟩ := kv
      simp only [NodupKeys, List.map_cons, List.nodup_cons] at h
      by_cases hk : k = a
      · simp only [dictDelete, hk, if_true]
        exact ih h.2
      · simp only [NodupKeys, dictDelete, hk, if_false, List.map_cons, List.nodup_cons]
        exact ⟨fun hc => h.1 (mem_keys_dictDelete hc), ih h.2⟩

theorem mem_dictDelete {d : List (α × β)} {a : α} {p : α × β} :
    p ∈ dictDelete d a → p ∈ d ∧ p.1 ≠ a := by
  induction d with
  | nil => intro h; simp [dictDelete] at h
  | cons kv rest ih =>
      obtain ⟨k, v⟩ := kv
      by_cases hk : k = a
      · intro h
        simp only [dictDelete, hk, if_true] at h
        exact ⟨List.mem_cons_of_mem _ (ih h).1, (ih h).2⟩
      · intro h
        simp only [dictDelete, hk, if_false, List.mem_cons] at h
        rcases h with h | h
        · exact ⟨by simp [h], by simp [h, hk]⟩
        · exact ⟨List.mem_cons_of_mem _ (ih h).1, (ih h).2⟩

end Dict

/-!
Python string primitives used by the source: `str.rstrip()` (strip trailing
whitespace), `str.lower()`, `str.split("\n")`, and `re.split(r"[\s\.]+", ...)`
(split on maximal nonempty runs of whitespace or literal dots, keeping the
possibly-empty tokens between runs, as CPython `re.split` does).
-/

def pyIsSpace (c : Char) : Bool :=
  c == ' ' || c == '\t' || c == '\n' || c == '\r' || c == '\x0b' || c == '\x0c'

def rstrip (s : String) : String :=
  String.mk (s.toList.reverse.dropWhile pyIsSpace).reverse

def isSepChar (c : Char) : Bool :=
  pyIsSpace c || c == '.'

/-- `str.lower()`, character by character (`String.toLower` itself is not
kernel-reducible; this list-based form is). -/
def pyToLower (s : String) : String :=
  String.mk (s.toList.map Char.toLower)

mutual

def splitSepTok (cur : List Char) : List Char → List String
  | [] => [String.mk cur.reverse]
  | c :: cs =>
      if isSepChar c then String.mk cur.reverse :: splitSepRun cs
      else splitSepTok (c :: cur) cs

def splitSepRun : List Char → List String
  | [] => [""]
  | c :: cs => if isSepChar c then splitSepRun cs else splitSepTok [c] cs

end

def pySplitSep (s : String) : List String :=
  splitSepTok [] s.toList

/-- Python `text.split("\n")`. -/
def splitNLAux (cur : List Char) : List Char → List String
  | [] => [String.mk cur.reverse]
  | c :: cs =>
      if c = '\n' then String.mk cur.reverse :: splitNLAux [] cs
      else splitNLAux (c :: cur) cs

def pySplitNL (s : String) : List String :=
  splitNLAux [] s.toList

/-!
Data model: one page entry of a snapshot (`[title, pagenr, lines, raw]` in
`walk_pages.py`), and the flattened per-page record built by
`normalize_data`.
-/

structure Entry where
  title : String
  pagenr : Nat
  lines : List String
  raw : String
deriving DecidableEq, Repr

structure PageData where
  title : String
  text : String
  raw : String
deriving DecidableEq, Repr

/-- A raw snapshot: mapping from index-group key to its list of entries. -/
abbrev SnapshotData := List (String × List Entry)

def entryPageData (e : Entry) : PageData :=
  { title := e.title, text := String.intercalate "\n" e.lines, raw := e.raw }

def normAdopt (result : List (Nat × PageData)) (seen : List (String × Nat))
    (e : Entry) : List (Nat × PageData) × List (String × Nat) :=
  (dictInsert result e.pagenr (entryPageData e), dictInsert seen e.title e.pagenr)

/-- One iteration of the `normalize_data` loop body.  `none` models the
`KeyError` that `del result[seen[title]]` raises when that page number is no
longer a key of `result`. -/
def normStep (st : List (Nat × PageData) × List (String × Nat)) (e : Entry) :
    Option (List (Nat × PageData) × List (String × Nat)) :=
  match dictLookup st.2 e.title with
  | some p =>
      if p < e.pagenr then some st
      else
        match dictLookup st.1 p with
        | none => none
        | some _ => some (normAdopt (dictDelete st.1 p) (dictDelete st.2 e.title) e)
  | none => some (normAdopt st.1 st.2 e)

/-- The inner loop of `normalize_data` over one index group's entries. -/
def normFold :
    List Entry → List (Nat × PageData) × List (String × Nat) →
    Option (List (Nat × PageData) × List (String × Nat))
  | [], st => some st
  | e :: rest, st =>
      match normStep st e with
      | none => none
      | some st' => normFold rest st'

/-- The outer loop of `normalize_data` over the index groups. -/
def normGroups :
    SnapshotData → List (Nat × PageData) × List (String × Nat) →
    Option (List (Nat × PageData) × List (String × Nat))
  | [], st => some st
  | g :: rest, st =>
      match normFold g.2 st with
      | none => none
      | some st' => normGroups rest st'

/-- `normalize_data` from `compare_pages.py`: flatten the nested snapshot into
a page-number-keyed mapping, deduplicating titles. -/
def normalize_data (data : SnapshotData) : Option (List (Nat × PageData)) :=
  (normGroups data ([], [])).map Prod.fst

theorem normFold_append (l1 l2 : List Entry) :
    ∀ st, normFold (l1 ++ l2) st =
      match normFold l1 st with
      | none => none
      | some st' => normFold l2 st' := by
  induction l1 with
  | nil => intro st; simp [normFold]
  | cons e rest ih =>
      intro st
      simp only [List.cons_append, normFold]
      cases normStep st e with
      | none => rfl
      | some st' => exact ih st'

theorem normGroups_eq_normFold (data : SnapshotData) :
    ∀ st, normGroups data st = normFold (data.flatMap Prod.snd) st := by
  induction data with
  | nil => intro st; simp [normGroups, normFold]
  | cons g rest ih =>
      intro st
      simp only [normGroups, List.flatMap_cons, normFold_append]
      cases normFold g.2 st with
      | none => rfl
      | some st' => exact ih st'

/-- `generate_word_map`: count lowercased words split on runs of whitespace
and dots. -/
def generate_word_map (text : String) : List (String × Nat) :=
  (pySplitSep text).foldl
    (fun result word =>
      let word := pyToLower word
      let cnt := (dictLookup result word).getD 0
      dictInsert result word (cnt + 1))
    []

/-- One direction of the `compare_word_maps` accumulation: scan `m`,
accumulating into `(same, total)`, comparing against `other`. -/
def cwmScan (m other : List (String × Nat)) (acc : Nat × Nat) : Nat × Nat :=
  m.foldl
    (fun acc wc =>
      let total := acc.2 + wc.2
      match dictLookup other wc.1 with
      | none => (acc.1, total)
      | some c2 =>
          if wc.2 = c2 then (acc.1 + wc.2, total)
          else if wc.2 < c2 then (acc.1 + wc.2, total)
          else (acc.1 + c2, total))
    acc

/-- `compare_word_maps`: symmetric overlap count plus the 90% verdict.  The
source computes `same * 100 / total >= 90` with Python float division; that is
modelled by the exact inequality `90 * total ≤ same * 100` (Python would raise
`ZeroDivisionError` at `total = 0`, which cannot happen for maps produced by
`generate_word_map` — see `generate_word_map_ne_nil`). -/
def compare_word_maps (map1 map2 : List (String × Nat)) : Bool × Nat × Nat :=
  let a1 := cwmScan map1 map2 (0, 0)
  let a2 := cwmScan map2 map1 a1
  (decide (90 * a2.2 ≤ a2.1 * 100), a2.1, a2.2)

def listIsPre : List Char → List Char → Bool
  | [], _ => true
  | _ :: _, [] => false
  | a :: as, b :: bs => a == b && listIsPre as bs

/-- The "ambiguous title" exclusion:
`re.match(r"Kort nieuws (binnen|buiten)land", title)` anchors at the start of
the title, so it holds exactly when the title starts with one of the two
literal alternatives. -/
def ambiguousTitle (title : String) : Bool :=
  listIsPre "Kort nieuws binnenland".toList title.toList
    || listIsPre "Kort nieuws buitenland".toList title.toList

/-- The loop of `find_matching_page`, threading the lazily generated word map
of the older page (`if not map1: map1 = generate_word_map(...)` — an empty
word map is falsy, hence the regeneration test). -/
def fmpLoop (data : PageData) :
    Option (List (String × Nat)) → List (Nat × PageData) → Option Nat
  | _, [] => none
  | map1, (pagenr, pagedata) :: rest =>
      if pagedata.title = data.title ∧ ambiguousTitle data.title = false then
        some pagenr
      else
        let m1 := match map1 with
          | none => generate_word_map data.text
          | some m => if m = [] then generate_word_map data.text else m
        if (compare_word_maps m1 (generate_word_map pagedata.text)).1 then some pagenr
        else fmpLoop data (some m1) rest

/-- `find_matching_page` (the `opts` parameter of the source is used only for
a debug print and is omitted). -/
def find_matching_page (data : PageData) (page_map : List (Nat × PageData)) :
    Option Nat :=
  fmpLoop data none page_map

example : pySplitSep "alpha beta" = ["alpha", "beta"] := by decide
example : pySplitSep " a." = ["", "a", ""] := by decide
example : generate_word_map "alpha beta" = [("alpha", 1), ("beta", 1)] := by rfl
example : compare_word_maps [("a", 2), ("b", 1)] [("a", 2), ("b", 1)] = (true, 6, 6) := by rfl
example : compare_word_maps [("a", 5)] [("b", 5)] = (false, 0, 10) := by rfl

/-- Options of the run (only the fields the reconciliation core reads). -/
structure Opts where
  dryrun : Bool
  post : Bool
  prev : String
  next : String
deriving DecidableEq, Repr

/-!
`create_timestamp`: parse `pages/YYYYMMDD-HHMMSS.json` out of a snapshot
filename (`re.match` anchors only at the start, so trailing characters after
`.json` are allowed), producing `YYYY-MM-DD HH:MM`.
-/

def dropLit : List Char → List Char → Option (List Char)
  | [], cs => some cs
  | _ :: _, [] => none
  | l :: ls, c :: cs => if c = l then dropLit ls cs else none

def digitsN : Nat → List Char → Option (String × List Char)
  | 0, cs => some ("", cs)
  | _ + 1, [] => none
  | n + 1, c :: cs =>
      if c.isDigit then
        match digitsN n cs with
        | some (s, rest) => some (String.mk (c :: s.toList), rest)
        | none => none
      else none

def create_timestamp (filename : String) : String :=
  let parsed : Option String := do
    let cs ← dropLit "pages/".toList filename.toList
    let (y, cs) ← digitsN 4 cs
    let (mo, cs) ← digitsN 2 cs
    let (d, cs) ← digitsN 2 cs
    let cs ← dropLit "-".toList cs
    let (h, cs) ← digitsN 2 cs
    let (mi, cs) ← digitsN 2 cs
    let (_, cs) ← digitsN 2 cs
    let _ ← dropLit ".json".toList cs
    pure s!"{y}-{mo}-{d} {h}:{mi}"
  match parsed with
  | some s => s
  | none => "0000-00-00 00:00"

/-- The loop of `remove_extra_spaces`: the source reverses the list, rstrips
each line, starts keeping lines at the first non-empty rstripped line, and
reverses the kept lines back. -/
def resLoop : Bool → List String → List String → Bool × List String
  | do_add, [], acc => (do_add, acc)
  | do_add, line :: rest, acc =>
      let line := rstrip line
      let do_add := if do_add = false ∧ 0 < line.length then true else do_add
      if do_add then resLoop do_add rest (acc ++ [line])
      else resLoop do_add rest acc

def remove_extra_spaces (lines : List String) : List String :=
  ((resLoop false lines.reverse []).2).reverse

/-!
Unified diff.  The source calls Python `difflib.unified_diff(list1, list2,
"Vorige versie", "Huidige versie", ts1, ts2, n=1, lineterm="")`, library code
that is not part of this repository.
-/

inductive DTag
  | equal
  | replace
  | del
  | ins
deriving DecidableEq, Repr

structure Opcode where
  tag : DTag
  i1 : Nat
  i2 : Nat
  j1 : Nat
  j2 : Nat
deriving DecidableEq, Repr

def commonPrefixLen : List String → List String → Nat
  | a :: as, b :: bs => if a = b then commonPrefixLen as bs + 1 else 0
  | _, _ => 0

def commonSuffixLen (a b : List String) : Nat :=
  commonPrefixLen a.reverse b.reverse

/-- Modelled from the spec: the matching-block computation of Python
`difflib.SequenceMatcher` (library code, not in `src/`).  §4.3 asks for "a
standard unified diff"; we model the match opcodes by longest common prefix
and suffix, giving at most one `equal` block at each end and one non-equal
block in the middle.  For equal inputs this yields a single all-covering
`equal` opcode, exactly as `difflib` does. -/
def get_opcodes (a b : List String) : List Opcode :=
  let pre := commonPrefixLen a b
  let suf := commonSuffixLen (a.drop pre) (b.drop pre)
  let la := a.length
  let lb := b.length
  let headB := if 0 < pre then [⟨DTag.equal, 0, pre, 0, pre⟩] else []
  let tailB := if 0 < suf then [⟨DTag.equal, la - suf, la, lb - suf, lb⟩] else []
  let midA := pre < la - suf
  let midB := pre < lb - suf
  let mid :=
    if midA ∧ midB then [⟨DTag.replace, pre, la - suf, pre, lb - suf⟩]
    else if midA then [⟨DTag.del, pre, la - suf, pre, pre⟩]
    else if midB then [⟨DTag.ins, pre, pre, pre, lb - suf⟩]
    else []
  headB ++ mid ++ tailB

/-- Modelled from the spec: `difflib.SequenceMatcher.get_grouped_opcodes`
trimming of a leading `equal` opcode to at most `n` lines of context. -/
def trimHead (n : Nat) (codes : List Opcode) : List Opcode :=
  match codes with
  | [] => []
  | c :: rest =>
      if c.tag = DTag.equal then
        ⟨DTag.equal, max c.i1 (c.i2 - n), c.i2, max c.j1 (c.j2 - n), c.j2⟩ :: rest
      else codes

/-- Modelled from the spec: the symmetric trimming of a trailing `equal`
opcode. -/
def trimLast (n : Nat) (codes : List Opcode) : List Opcode :=
  match codes.getLast? with
  | none => []
  | some c =>
      if c.tag = DTag.equal then
        codes.dropLast ++ [⟨DTag.equal, c.i1, min c.i2 (c.i1 + n), c.j1, min c.j2 (c.j1 + n)⟩]
      else codes

/-- Modelled from the spec: `get_grouped_opcodes` starts from
`[("equal", 0, 1, 0, 1)]` when there are no opcodes, then trims both ends. -/
def pretrimCodes (n : Nat) (codes : List Opcode) : List Opcode :=
  let codes := if codes = [] then [⟨DTag.equal, 0, 1, 0, 1⟩] else codes
  trimLast n (trimHead n codes)

/-- Modelled from the spec: the grouping loop of `get_grouped_opcodes` — an
interior `equal` opcode longer than `2n` lines closes the current hunk (kept
context trimmed to `n`) and opens the next one; a final group consisting of a
single `equal` opcode is not emitted (so equal inputs produce no hunks). -/
def groupLoop (n : Nat) (group : List Opcode) : List Opcode → List (List Opcode)
  | [] =>
      match group with
      | [] => []
      | [c] => if c.tag = DTag.equal then [] else [[c]]
      | _ => [group]
  | c :: rest =>
      if c.tag = DTag.equal ∧ 2 * n < c.i2 - c.i1 then
        (group ++ [⟨DTag.equal, c.i1, min c.i2 (c.i1 + n), c.j1, min c.j2 (c.j1 + n)⟩]) ::
          groupLoop n [⟨DTag.equal, max c.i1 (c.i2 - n), c.i2, max c.j1 (c.j2 - n), c.j2⟩] rest
      else groupLoop n (group ++ [c]) rest

def get_grouped_opcodes (n : Nat) (codes : List Opcode) : List (List Opcode) :=
  groupLoop n [] (pretrimCodes n codes)

/-- Modelled from the spec: `difflib._format_range_unified`. -/
def formatRangeUnified (start stop : Nat) : String :=
  let length := stop - start
  if length = 1 then toString (start + 1)
  else if length = 0 then s!"{start},0"
  else
    let beginning := start + 1
    s!"{beginning},{length}"

def opcodeLines (a b : List String) (c : Opcode) : List String :=
  match c.tag with
  | DTag.equal => ((a.drop c.i1).take (c.i2 - c.i1)).map (fun l => " " ++ l)
  | DTag.replace =>
      ((a.drop c.i1).take (c.i2 - c.i1)).map (fun l => "-" ++ l)
        ++ ((b.drop c.j1).take (c.j2 - c.j1)).map (fun l => "+" ++ l)
  | DTag.del => ((a.drop c.i1).take (c.i2 - c.i1)).map (fun l => "-" ++ l)
  | DTag.ins => ((b.drop c.j1).take (c.j2 - c.j1)).map (fun l => "+" ++ l)

def defaultOpcode : Opcode := ⟨DTag.equal, 0, 0, 0, 0⟩

def hunkHeader (g : List Opcode) : String :=
  let first := g.head?.getD defaultOpcode
  let last := g.getLast?.getD defaultOpcode
  let r1 := formatRangeUnified first.i1 last.i2
  let r2 := formatRangeUnified first.j1 last.j2
  s!"@@ -{r1} +{r2} @@"

/-- Modelled from the spec: `difflib.unified_diff` with `lineterm = ""` — no
output at all when there are no hunks, otherwise two `---`/`+++` header lines
followed by the hunks. -/
def unified_diff (a b : List String) (fromfile tofile fromdate todate : String)
    (n : Nat) : List String :=
  let groups := get_grouped_opcodes n (get_opcodes a b)
  match groups with
  | [] => []
  | _ =>
      ("--- " ++ fromfile ++ "\t" ++ fromdate)
        :: ("+++ " ++ tofile ++ "\t" ++ todate)
        :: groups.flatMap (fun g => hunkHeader g :: g.flatMap (opcodeLines a b))

/-- `generate_diff` from `compare_pages.py`. -/
def generate_diff (opts : Opts) (text1 text2 : String) : String :=
  let list1 := remove_extra_spaces (pySplitNL text1)
  let list2 := remove_extra_spaces (pySplitNL text2)
  String.intercalate "\n"
    (unified_diff list1 list2 "Vorige versie" "Huidige versie"
      (create_timestamp opts.prev) (create_timestamp opts.next) 1)

/-!
The Post-State Store (`get_state`, `clear_state`, `set_state`).  Page numbers
are always coerced with Python `str(...)` before use as the inner key; `PyKey`
records whether the caller passed an integer or a string, and `pyStr` is the
coercion.
-/

inductive PyKey
  | int (n : Nat)
  | str (s : String)
deriving DecidableEq, Repr

def pyStr : PyKey → String
  | PyKey.int n => toString n
  | PyKey.str s => s

abbrev PostState := List (String × List (String × String))

def get_state (state : PostState) (title : String) (pagenr : PyKey) : Option String :=
  let p := pyStr pagenr
  match dictLookup state title with
  | some inner => dictLookup inner p
  | none => none

def clear_state (state : PostState) (title : String) (pagenr : PyKey) : PostState :=
  let p := pyStr pagenr
  match dictLookup state title with
  | none => state
  | some inner =>
      match dictLookup inner p with
      | none => state
      | some _ =>
          let inner := dictDelete inner p
          if inner.length = 0 then dictDelete state title
          else dictInsert state title inner

def set_state (state : PostState) (title : String) (pagenr : PyKey)
    (post_id : String) : PostState :=
  let p := pyStr pagenr
  match dictLookup state title with
  | none => dictInsert state title [(p, post_id)]
  | some inner => dictInsert state title (dictInsert inner p post_id)

example :
    generate_diff { dryrun := false, post := false, prev := "p", next := "n" }
      "x\n\n\n" "x\n" = "" := by rfl

/-!
The posting collaborator (a Mastodon server reached through `urllib3`).  Each
HTTP request the core issues is recorded as a `CallEvent`; an `Oracle` maps
the call history (ending in the call being answered) to the response.  `Resp`
carries the pieces of the response the core reads: the HTTP status, the `id`
field of the JSON body, and the list of attached media ids.  `sys.exit(1)` is
modelled as `Except.error (RunErr.exit 1)`; an uncaught Python exception as
`RunErr.exc`.
-/

structure Resp where
  status : Nat
  id : String
  media : List String
deriving DecidableEq, Repr

inductive CallEvent
  | mediaUpload (file : String) (description : String)
  | statusGet (post_id : String)
  | statusPut (post_id : String) (status_text : String)
  | statusPost (status_text : String)
deriving DecidableEq, Repr

def Oracle := List CallEvent → Resp

inductive RunErr
  | exit (code : Nat)
  | exc
deriving DecidableEq, Repr

def doRequest (orc : Oracle) (evs : List CallEvent) (e : CallEvent) :
    Resp × List CallEvent :=
  (orc (evs ++ [e]), evs ++ [e])

/-- Python `str(...)` of a value that is `None` or a string. -/
def fmtPyOpt : Option String → String
  | none => "None"
  | some s => s

/-- Python truthiness of a value that is `None` or a string. -/
def pyTruthyStr : Option String → Bool
  | none => false
  | some s => decide (s ≠ "")

/-- `generate_attachment`: render the page (external rendering collaborator,
not modelled — it has no statuses), upload the image, and exit with code 1 on
a status ≥ 400, else return the media id. -/
def generate_attachment (orc : Oracle) (evs : List CallEvent) (pagenr : Nat)
    (_raw_content text_content timestamp : String) :
    Except RunErr (String × List CallEvent) :=
  let file_name := s!"tt/tt{pagenr}.png"
  let (result, evs) :=
    doRequest orc evs (CallEvent.mediaUpload file_name s!"[{timestamp}]\n\n{text_content}")
  if 400 ≤ result.status then Except.error (RunErr.exit 1)
  else Except.ok (result.id, evs)

/-- `generate_diff_attachment`: upload the rendered diff image; exit with
code 1 on a status ≥ 400, else return the media id. -/
def generate_diff_attachment (orc : Oracle) (evs : List CallEvent)
    (text timestamp : String) : Except RunErr (String × List CallEvent) :=
  let (result, evs) :=
    doRequest orc evs (CallEvent.mediaUpload "tt/diff.png" s!"[{timestamp}]\n\n{text}")
  if 400 ≤ result.status then Except.error (RunErr.exit 1)
  else Except.ok (result.id, evs)

/-- `get_media_data`: fetch the post and return its attached media ids (the
source never checks this response's status). -/
def get_media_data (orc : Oracle) (evs : List CallEvent) (post_id : String) :
    List String × List CallEvent :=
  let (result, evs) := doRequest orc evs (CallEvent.statusGet post_id)
  (result.media, evs)

def post_status_text (pagenr : Nat) (title : String) : String :=
  s!"[{pagenr}] {title}\nhttps://nos.nl/teletekst/{pagenr} #teletekst"

/-- `create_post`: upload the page image, then POST a new status.  The POST's
status code is not checked; the `id` field is extracted from the body. -/
def create_post (orc : Oracle) (evs : List CallEvent) (title : String)
    (pagenr : Nat) (raw_content text_content timestamp : String) :
    Except RunErr ((String × String) × List CallEvent) :=
  match generate_attachment orc evs pagenr raw_content text_content timestamp with
  | Except.error e => Except.error e
  | Except.ok (media_id, evs) =>
      let (result, evs) :=
        doRequest orc evs (CallEvent.statusPost (post_status_text pagenr title))
      Except.ok ((media_id, result.id), evs)

/-- `create_update`: when the text is unchanged, PUT the existing post in
place (status returned, not checked); when the text changed, upload the new
image and the diff image and POST a follow-up, returning its id and status. -/
def create_update (orc : Oracle) (evs : List CallEvent) (opts : Opts)
    (post_id : String) (_old_pagenr : Nat) (old_pagedata : PageData)
    (new_pagenr : Nat) (new_pagedata : PageData) (timestamp : String) :
    Except RunErr ((String × Nat) × List CallEvent) :=
  if old_pagedata.text = new_pagedata.text then
    let (_media_ids, evs) := get_media_data orc evs post_id
    let (result, evs) :=
      doRequest orc evs
        (CallEvent.statusPut post_id (post_status_text new_pagenr new_pagedata.title))
    Except.ok ((post_id, result.status), evs)
  else
    match generate_attachment orc evs new_pagenr new_pagedata.raw new_pagedata.text timestamp with
    | Except.error e => Except.error e
    | Except.ok (_m1, evs) =>
        match generate_diff_attachment orc evs
            (generate_diff opts old_pagedata.text new_pagedata.text) timestamp with
        | Except.error e => Except.error e
        | Except.ok (_m2, evs) =>
            let (result, evs) :=
              doRequest orc evs
                (CallEvent.statusPost (post_status_text new_pagenr new_pagedata.title))
            Except.ok ((result.id, result.status), evs)

/-- `mark_deleted`: fetch the media ids, PUT the `[Verwijderd]` caption, and
return the PUT's status.  No status is checked, so this never aborts; a
`None` post id is formatted into the URL as the string `"None"`. -/
def mark_deleted (orc : Oracle) (evs : List CallEvent) (post_id : Option String)
    (title : String) : Nat × List CallEvent :=
  let pid := fmtPyOpt post_id
  let (_media_ids, evs) := get_media_data orc evs pid
  let (result, evs) :=
    doRequest orc evs (CallEvent.statusPut pid s!"[Verwijderd] {title}\n#teletekst")
  (result.status, evs)

/-!
The reconciler (`main`).  The loop over the older normalized snapshot is
`mainLoop`; the trailing loop over the remaining newer pages is
`newPagesLoop`.  The Python state mutations become explicit state passing;
the report lists `pages_del`/`pages_alt`/`pages_new` are accumulated in
order.
-/

def delLine (pagenr : Nat) (title : String) (post_id : Option String)
    (result_status : String) : String :=
  let pid := fmtPyOpt post_id
  s!"#{pagenr} '{title}' - Post ID {pid} ({result_status})"

/-- The body of the "page has left the building" branch of `main`. -/
def deletedStep (orc : Oracle) (opts : Opts) (pagenr : Nat) (pagedata : PageData)
    (state : PostState) (evs : List CallEvent) :
    PostState × List CallEvent × String :=
  let post_id := get_state state pagedata.title (PyKey.int pagenr)
  if opts.dryrun then
    (state, evs, delLine pagenr pagedata.title post_id "<unknown>")
  else
    let (st, evs) := mark_deleted orc evs post_id pagedata.title
    let state := clear_state state pagedata.title (PyKey.int pagenr)
    (state, evs, delLine pagenr pagedata.title post_id (toString st))

/-- The posting part of the "something differs" branch of `main`: returns the
final `post_id` variable, the `result_status` string, and the updated state
and events. -/
def changedStep (orc : Oracle) (opts : Opts) (pagenr : Nat) (pagedata : PageData)
    (pagenr_match : Nat) (newdata : PageData) (state : PostState)
    (evs : List CallEvent) :
    Except RunErr (Option String × String × PostState × List CallEvent) :=
  let post_id0 := get_state state pagedata.title (PyKey.int pagenr)
  if pyTruthyStr post_id0 then
    if opts.dryrun then Except.ok (post_id0, "<unknown>", state, evs)
    else
      match post_id0 with
      | none => Except.error RunErr.exc
      | some pid =>
          match create_update orc evs opts pid pagenr pagedata pagenr_match newdata
              (create_timestamp opts.next) with
          | Except.error e => Except.error e
          | Except.ok ((post_id', st), evs) =>
              let state := clear_state state pagedata.title (PyKey.int pagenr)
              let state := set_state state newdata.title (PyKey.int pagenr_match) post_id'
              Except.ok (some post_id', toString st, state, evs)
  else
    if opts.dryrun then Except.ok (some "<unknown>", "<?>", state, evs)
    else
      match create_post orc evs newdata.title pagenr_match newdata.raw newdata.text
          (create_timestamp opts.next) with
      | Except.error e => Except.error e
      | Except.ok ((_media_id, post_id'), evs) =>
          let state := set_state state newdata.title (PyKey.int pagenr_match) post_id'
          Except.ok (some post_id', "<?>", state, evs)

/-- The `pages_alt` report line of the "something differs" branch. -/
def altLine (opts : Opts) (pagenr pagenr_match : Nat) (old new : PageData)
    (post_id : Option String) (result_status : String) : String :=
  let sect_pagenr :=
    if pagenr = pagenr_match then s!"#{pagenr}" else s!"#{pagenr} -> {pagenr_match}"
  let ot := old.title
  let nt := new.title
  let sect_title := s!"'{ot}'"
  let sect_title_extra := if old.title = new.title then "" else s!" ('{nt}')"
  let sect_content :=
    if old.text = new.text then ""
    else
      let d := generate_diff opts old.text new.text
      s!":\n\n{d}\n"
  let changed_list :=
    (if old.title = new.title then [] else ["title"])
      ++ (if old.text = new.text then [] else ["content"])
  let sect_changes :=
    if changed_list.length = 0 then ""
    else
      let cj := String.intercalate " & " changed_list
      s!" {cj} changed"
  let sect_post :=
    if pyTruthyStr post_id then
      let pid := fmtPyOpt post_id
      s!"Post ID: {pid} {result_status}"
    else s!"Post ID <unknown> {result_status}"
  s!"{sect_pagenr} {sect_title}{sect_changes}{sect_title_extra} {sect_post}{sect_content}"

def mainLoop (orc : Oracle) (opts : Opts) :
    List (Nat × PageData) → List (Nat × PageData) → PostState →
    List CallEvent → List String → List String →
    Except RunErr
      (List (Nat × PageData) × PostState × List CallEvent × List String × List String)
  | [], next_list, state, evs, dels, alts =>
      Except.ok (next_list, state, evs, dels, alts)
  | (pagenr, pagedata) :: rest, next_list, state, evs, dels, alts =>
      match find_matching_page pagedata next_list with
      | none =>
          let (state, evs, line) := deletedStep orc opts pagenr pagedata state evs
          mainLoop orc opts rest next_list state evs (dels ++ [line]) alts
      | some pagenr_match =>
          if pagenr_match = 0 then
            let (state, evs, line) := deletedStep orc opts pagenr pagedata state evs
            mainLoop orc opts rest next_list state evs (dels ++ [line]) alts
          else
            match dictLookup next_list pagenr_match with
            | none => Except.error RunErr.exc
            | some newdata =>
                if pagenr = pagenr_match ∧ pagedata.title = newdata.title
                    ∧ pagedata.text = newdata.text then
                  mainLoop orc opts rest (dictDelete next_list pagenr_match) state evs dels alts
                else
                  match changedStep orc opts pagenr pagedata pagenr_match newdata state evs with
                  | Except.error e => Except.error e
                  | Except.ok (post_id, result_status, state, evs) =>
                      let line :=
                        altLine opts pagenr pagenr_match pagedata newdata post_id result_status
                      mainLoop orc opts rest (dictDelete next_list pagenr_match) state evs
                        dels (alts ++ [line])

/-- The `pages_new` report line when posting is enabled (the source's
f-string is missing the closing quote after the title; reproduced as-is). -/
def newLinePosted (pagenr : Nat) (title media_id post_id : String) : String :=
  s!"#{pagenr} '{title} - Media ID {media_id}; Post ID {post_id}"

def newLinePlain (pagenr : Nat) (title : String) : String :=
  s!"#{pagenr} '{title}"

def newPagesLoop (orc : Oracle) (opts : Opts) :
    List (Nat × PageData) → PostState → List CallEvent → List String →
    Except RunErr (PostState × List CallEvent × List String)
  | [], state, evs, news => Except.ok (state, evs, news)
  | (pagenr, pagedata) :: rest, state, evs, news =>
      if opts.post then
        if opts.dryrun then
          newPagesLoop orc opts rest state evs
            (news ++ [newLinePosted pagenr pagedata.title "<unknown>" "<unknown>"])
        else
          match create_post orc evs pagedata.title pagenr pagedata.raw pagedata.text
              (create_timestamp opts.next) with
          | Except.error e => Except.error e
          | Except.ok ((media_id, post_id), evs) =>
              let state := set_state state pagedata.title (PyKey.int pagenr) post_id
              newPagesLoop orc opts rest state evs
                (news ++ [newLinePosted pagenr pagedata.title media_id post_id])
      else
        newPagesLoop orc opts rest state evs (news ++ [newLinePlain pagenr pagedata.title])

structure RunResult where
  pages_del : List String
  pages_new : List String
  pages_alt : List String
  finalState : PostState
  events : List CallEvent
deriving DecidableEq, Repr

/-- `main` (reconciliation part): load and normalize both snapshots, run the
reconciliation loop and the new-pages loop, and — on the non-aborting path
only — return the final state that `save_post_state` then writes.  An
`Except.error` result models a run that aborted before the state file was
written. -/
def runMain (orc : Oracle) (opts : Opts) (prev_json next_json : SnapshotData)
    (state0 : PostState) : Except RunErr RunResult :=
  match normalize_data prev_json, normalize_data next_json with
  | some prev_list, some next_list =>
      (match mainLoop orc opts prev_list next_list state0 [] [] [] with
       | Except.error e => Except.error e
       | Except.ok (next_rem, state, evs, dels, alts) =>
           match newPagesLoop orc opts next_rem state evs [] with
           | Except.error e => Except.error e
           | Except.ok (state, evs, news) =>
               Except.ok
                 { pages_del := dels, pages_new := news, pages_alt := alts,
                   finalState := state, events := evs })
  | _, _ => Except.error RunErr.exc

/-!
Pure mirror of the reconciler in dry-run mode: the classification and report
lines `main` produces when `--dryrun` is set, with no oracle, no events and
no state mutation.  Sentinel record ids: `"<unknown>"` stands for any id that
a real run would have produced.
-/

def dryDelLine (state : PostState) (pagenr : Nat) (pagedata : PageData) : String :=
  delLine pagenr pagedata.title (get_state state pagedata.title (PyKey.int pagenr))
    "<unknown>"

def dryAltLine (opts : Opts) (state : PostState) (pagenr pagenr_match : Nat)
    (old new : PageData) : String :=
  let post_id0 := get_state state old.title (PyKey.int pagenr)
  if pyTruthyStr post_id0 then altLine opts pagenr pagenr_match old new post_id0 "<unknown>"
  else altLine opts pagenr pagenr_match old new (some "<unknown>") "<?>"

def dryLoop (opts : Opts) (state : PostState) :
    List (Nat × PageData) → List (Nat × PageData) → List String → List String →
    List (Nat × PageData) × List String × List String
  | [], next_list, dels, alts => (next_list, dels, alts)
  | (pagenr, pagedata) :: rest, next_list, dels, alts =>
      match find_matching_page pagedata next_list with
      | none =>
          dryLoop opts state rest next_list
            (dels ++ [dryDelLine state pagenr pagedata]) alts
      | some pagenr_match =>
          if pagenr_match = 0 then
            dryLoop opts state rest next_list
              (dels ++ [dryDelLine state pagenr pagedata]) alts
          else
            match dictLookup next_list pagenr_match with
            | none => (next_list, dels, alts)
            | some newdata =>
                if pagenr = pagenr_match ∧ pagedata.title = newdata.title
                    ∧ pagedata.text = newdata.text then
                  dryLoop opts state rest (dictDelete next_list pagenr_match) dels alts
                else
                  dryLoop opts state rest (dictDelete next_list pagenr_match) dels
                    (alts ++ [dryAltLine opts state pagenr pagenr_match pagedata newdata])

def dryNews (opts : Opts) (next_rem : List (Nat × PageData)) : List String :=
  next_rem.map (fun pd =>
    if opts.post then newLinePosted pd.1 pd.2.title "<unknown>" "<unknown>"
    else newLinePlain pd.1 pd.2.title)

def dryResult (opts : Opts) (prev_list next_list : List (Nat × PageData))
    (state0 : PostState) : RunResult :=
  let r := dryLoop opts state0 prev_list next_list [] []
  { pages_del := r.2.1, pages_new := dryNews opts r.1, pages_alt := r.2.2,
    finalState := state0, events := [] }

/-! Supporting lemmas. -/

theorem dictLookup_isSome_of_mem_keys {α β : Type} [DecidableEq α]
    {d : List (α × β)} {k : α} (h : k ∈ d.map Prod.fst) :
    (dictLookup d k).isSome = true := by
  induction d with
  | nil => simp at h
  | cons kv rest ih =>
      obtain ⟨k', v⟩ := kv
      by_cases hk : k' = k
      · simp [dictLookup, hk]
      · simp only [List.map_cons, List.mem_cons] at h
        rcases h with h | h
        · exact absurd h.symm hk
        · simpa [dictLookup, hk] using ih h

theorem fmpLoop_mem {data : PageData} :
    ∀ (m1 : Option (List (String × Nat))) (l : List (Nat × PageData)) (p : Nat),
      fmpLoop data m1 l = some p → p ∈ l.map Prod.fst := by
  intro m1 l
  induction l generalizing m1 with
  | nil => intro p h; simp [fmpLoop] at h
  | cons kv rest ih =>
      obtain ⟨q, pd⟩ := kv
      intro p h
      simp only [fmpLoop] at h
      split at h
      · simp only [Option.some.injEq] at h
        simp [h]
      · split at h
        · simp only [Option.some.injEq] at h
          simp [h]
        · exact List.mem_cons_of_mem _ (ih _ p h)

theorem find_matching_page_isSome {data : PageData} {nl : List (Nat × PageData)}
    {p : Nat} (h : find_matching_page data nl = some p) :
    (dictLookup nl p).isSome = true :=
  dictLookup_isSome_of_mem_keys (fmpLoop_mem none nl p h)

theorem newPagesLoop_dryrun (orc : Oracle) (opts : Opts) (h : opts.dryrun = true) :
    ∀ (l : List (Nat × PageData)) (st : PostState) (evs : List CallEvent)
      (news : List String),
      newPagesLoop orc opts l st evs news = Except.ok (st, evs, news ++ dryNews opts l) := by
  intro l
  induction l with
  | nil => intro st evs news; simp [newPagesLoop, dryNews]
  | cons kv rest ih =>
      obtain ⟨pagenr, pd⟩ := kv
      intro st evs news
      by_cases hp : opts.post
      · simp [newPagesLoop, hp, h, ih, dryNews]
      · simp [newPagesLoop, hp, h, ih, dryNews]

theorem mainLoop_dryrun (orc : Oracle) (opts : Opts) (h : opts.dryrun = true) :
    ∀ (prevs nl : List (Nat × PageData)) (st : PostState) (evs : List CallEvent)
      (dels alts : List String),
      mainLoop orc opts prevs nl st evs dels alts =
        Except.ok ((dryLoop opts st prevs nl dels alts).1, st, evs,
          (dryLoop opts st prevs nl dels alts).2.1,
          (dryLoop opts st prevs nl dels alts).2.2) := by
  intro prevs
  induction prevs with
  | nil => intro nl st evs dels alts; simp [mainLoop, dryLoop]
  | cons kv rest ih =>
      obtain ⟨pagenr, pd⟩ := kv
      intro nl st evs dels alts
      cases hf : find_matching_page pd nl with
      | none =>
          simp only [mainLoop, dryLoop, hf, deletedStep, h, if_true]
          exact ih nl st evs (dels ++ [dryDelLine st pagenr pd]) alts
      | some pm =>
          by_cases h0 : pm = 0
          · subst h0
            simp only [mainLoop, dryLoop, hf, deletedStep, h, if_true]
            exact ih nl st evs (dels ++ [dryDelLine st pagenr pd]) alts
          · cases hl : dictLookup nl pm with
            | none =>
                have := find_matching_page_isSome hf
                rw [hl] at this
                simp at this
            | some nd =>
                by_cases hu : pagenr = pm ∧ pd.title = nd.title ∧ pd.text = nd.text
                · simp only [mainLoop, dryLoop, hf, h0, if_false, hl, hu, if_true]
                  exact ih (dictDelete nl pm) st evs dels alts
                · by_cases ht : pyTruthyStr (get_state st pd.title (PyKey.int pagenr))
                  · simp only [mainLoop, dryLoop, hf, h0, if_false, hl, hu, if_true,
                      changedStep, h, ht, dryAltLine]
                    exact ih (dictDelete nl pm) st evs dels
                      (alts ++ [altLine opts pagenr pm pd nd
                        (get_state st pd.title (PyKey.int pagenr)) "<unknown>"])
                  · simp only [mainLoop, dryLoop, hf, h0, if_false, hl, hu, if_true,
                      changedStep, h, ht, dryAltLine]
                    exact ih (dictDelete nl pm) st evs dels
                      (alts ++ [altLine opts pagenr pm pd nd (some "<unknown>") "<?>"])

/-- C5: with dry-run enabled, the reconciler mutates no in-memory post state
(the final state equals the loaded state), issues no posting-collaborator
call (the event list is empty), and still produces the Deleted/Changed/New
classifications and report lines — exactly those of the pure classifier
`dryResult`, whose report lines carry the sentinel `"<unknown>"` in place of
any record id a real run would have produced. -/
theorem dryrun_no_mutation_no_calls (orc : Oracle) (opts : Opts)
    (prev_json next_json : SnapshotData) (state0 : PostState)
    (pl nl : List (Nat × PageData))
    (hd : opts.dryrun = true)
    (hp : normalize_data prev_json = some pl)
    (hn : normalize_data next_json = some nl) :
    runMain orc opts prev_json next_json state0 = Except.ok (dryResult opts pl nl state0)
      ∧ (dryResult opts pl nl state0).finalState = state0
      ∧ (dryResult opts pl nl state0).events = [] := by
  refine ⟨?_, rfl, rfl⟩
  simp only [runMain, hp, hn]
  rw [mainLoop_dryrun orc opts hd]
  simp [newPagesLoop_dryrun orc opts hd, dryResult]

def orcOk : Oracle := fun _ => { status := 200, id := "99", media := [] }

def orc500 : Oracle := fun _ => { status := 500, id := "99", media := [] }

def optsDry : Opts :=
  { dryrun := true, post := true,
    prev := "pages/20240101-120000.json", next := "pages/20240101-130000.json" }

def snapDel : SnapshotData := [("101", [⟨"Weer", 101, ["zon"], "raw1"⟩])]

def stateWeer : PostState := [("Weer", [("101", "77")])]

/-- Witness for C5: a concrete dry run whose older snapshot has one page that
disappeared; the run returns the loaded state untouched, an empty event list,
and the deleted-report line carries the `"<unknown>"` sentinel. -/
theorem dryrun_no_mutation_no_calls_witness :
    runMain orcOk optsDry snapDel [] stateWeer =
      Except.ok
        { pages_del := ["#101 'Weer' - Post ID 77 (<unknown>)"], pages_new := [],
          pages_alt := [], finalState := stateWeer, events := [] } := by
  have h := dryrun_no_mutation_no_calls orcOk optsDry snapDel [] stateWeer
    [(101, ⟨"Weer", "zon", "raw1"⟩)] [] rfl (by rfl) (by rfl)
  exact h.1.trans (by rfl)

/-- C10: outside dry-run, a page of the older snapshot with no match in the
newer snapshot and no record id in the Post-State Store still triggers the
retraction side effect — the collaborator is called (GET then PUT) with the
`None` lookup result formatted as the record id `"None"`, and the
deleted-report line records that `None` id. -/
theorem deleted_page_without_record_still_retracts (orc : Oracle) (opts : Opts)
    (pagenr : Nat) (pd : PageData) (rest nl : List (Nat × PageData))
    (st : PostState) (evs : List CallEvent) (dels alts : List String)
    (hd : opts.dryrun = false)
    (hf : find_matching_page pd nl = none)
    (hg : get_state st pd.title (PyKey.int pagenr) = none) :
    mainLoop orc opts ((pagenr, pd) :: rest) nl st evs dels alts =
      (let getEv := CallEvent.statusGet "None"
       let putEv := CallEvent.statusPut "None" s!"[Verwijderd] {pd.title}\n#teletekst"
       let sts := (orc (evs ++ [getEv, putEv])).status
       mainLoop orc opts rest nl (clear_state st pd.title (PyKey.int pagenr))
         (evs ++ [getEv, putEv])
         (dels ++ [delLine pagenr pd.title none (toString sts)]) alts) := by
  simp only [mainLoop, hf, deletedStep, hd, Bool.false_eq_true, if_false, hg,
    mark_deleted, get_media_data, doRequest, fmtPyOpt, List.append_assoc,
    List.cons_append, List.nil_append]

def optsLive : Opts :=
  { dryrun := false, post := false,
    prev := "pages/20240101-120000.json", next := "pages/20240101-130000.json" }

def pdWeer : PageData := { title := "Weer", text := "zon", raw := "raw1" }

/-- Witness for C10: on a concrete run the retraction events with post id
`"None"` are issued and the deleted line records `Post ID None`. -/
theorem deleted_page_without_record_still_retracts_witness :
    mainLoop orcOk optsLive [(101, pdWeer)] [] [] [] [] [] =
      Except.ok ([], [],
        [CallEvent.statusGet "None",
         CallEvent.statusPut "None" "[Verwijderd] Weer\n#teletekst"],
        ["#101 'Weer' - Post ID None (200)"], []) := by
  have h := deleted_page_without_record_still_retracts orcOk optsLive 101 pdWeer
    [] [] [] [] [] [] rfl (by rfl) (by rfl)
  exact h.trans (by rfl)

/-- C4 counterexample: a concrete non-dry run in which the retraction PUT
returns status 500 (≥ 400), yet the run does not abort: it completes with
`Except.ok`, the report records the 500 status, and the final state (which
`save_post_state` then writes) is produced.  This refutes "every call to the
posting collaborator that returns a status ≥ 400 causes the run to abort
immediately with a non-zero exit, before the persisted state file is
written". -/
theorem retraction_failure_run_completes :
    runMain orc500 optsLive [("101", [⟨"Weer", 101, ["zon"], "raw1"⟩])] [] [] =
      Except.ok
        { pages_del := ["#101 'Weer' - Post ID None (500)"], pages_new := [],
          pages_alt := [],
          finalState := [],
          events := [CallEvent.statusGet "None",
                     CallEvent.statusPut "None" "[Verwijderd] Weer\n#teletekst"] } := by
  rfl

/-- C4 (amended): only the media-upload operations abort on a failure status:
`generate_attachment` and `generate_diff_attachment` exit with code 1
whenever the upload response status is ≥ 400 (and an aborted run never
reaches the state write, since only an `Except.ok` run yields a final state);
the statuses of the record-update PUT and of the retraction are returned to
the caller and reported, but never checked, so the run continues and writes
the state file — and record creation extracts the id without checking the
status either. -/
theorem upload_failure_aborts_update_retract_do_not (orc : Oracle)
    (evs : List CallEvent) (pagenr : Nat)
    (raw text ts diffText title : String) (pid : Option String) :
    (400 ≤ (orc (evs ++ [CallEvent.mediaUpload s!"tt/tt{pagenr}.png" s!"[{ts}]\n\n{text}"])).status →
       generate_attachment orc evs pagenr raw text ts = Except.error (RunErr.exit 1))
    ∧ (400 ≤ (orc (evs ++ [CallEvent.mediaUpload "tt/diff.png" s!"[{ts}]\n\n{diffText}"])).status →
       generate_diff_attachment orc evs diffText ts = Except.error (RunErr.exit 1))
    ∧ (mark_deleted orc evs pid title =
        ((orc (evs ++ [CallEvent.statusGet (fmtPyOpt pid),
          CallEvent.statusPut (fmtPyOpt pid) s!"[Verwijderd] {title}\n#teletekst"])).status,
         evs ++ [CallEvent.statusGet (fmtPyOpt pid),
          CallEvent.statusPut (fmtPyOpt pid) s!"[Verwijderd] {title}\n#teletekst"])) := by
  refine ⟨fun h => ?_, fun h => ?_, ?_⟩
  · simp only [generate_attachment, doRequest, if_pos h]
  · simp only [generate_diff_attachment, doRequest, if_pos h]
  · simp only [mark_deleted, get_media_data, doRequest, fmtPyOpt, List.append_assoc,
      List.cons_append, List.nil_append]

/-- Witness for the amended C4: at a concrete all-500 oracle the page upload
aborts with exit code 1 while the retraction returns the 500 status without
aborting. -/
theorem upload_failure_aborts_update_retract_do_not_witness :
    generate_attachment orc500 [] 101 "raw1" "zon" "t" = Except.error (RunErr.exit 1)
      ∧ (mark_deleted orc500 [] none "Weer").1 = 500 := by
  have h := upload_failure_aborts_update_retract_do_not orc500 [] 101
    "raw1" "zon" "t" "d" "Weer" none
  exact ⟨h.1 (by decide), by rw [h.2.2]; rfl⟩

/-! Word-map overlap: closed-form sums for `compare_word_maps`. -/

/-- Per-word contribution of one scan direction to `same`: `min` of the two
counts when the word is present in the other map, nothing when absent. -/
def sameCode (m other : List (String × Nat)) : Nat :=
  (m.map (fun wc =>
    match dictLookup other wc.1 with
    | none => 0
    | some c2 => min wc.2 c2)).sum

def totalOf (m : List (String × Nat)) : Nat :=
  (m.map Prod.snd).sum

theorem cwmScan_eq (other : List (String × Nat)) :
    ∀ (m : List (String × Nat)) (s t : Nat),
      cwmScan m other (s, t) = (s + sameCode m other, t + totalOf m) := by
  intro m
  induction m with
  | nil => intro s t; simp [cwmScan, sameCode, totalOf]
  | cons wc rest ih =>
      intro s t
      have hstep :
          cwmScan (wc :: rest) other (s, t) =
            cwmScan rest other
              (s + (match dictLookup other wc.1 with
                    | none => 0
                    | some c2 => min wc.2 c2), t + wc.2) := by
        simp only [cwmScan, List.foldl_cons]
        cases hl : dictLookup other wc.1 with
        | none => simp [hl, cwmScan]
        | some c2 =>
            by_cases h1 : wc.2 = c2
            · simp [hl, h1, cwmScan, Nat.min_def]
            · by_cases h2 : wc.2 < c2
              · simp [hl, h1, h2, cwmScan, Nat.min_def, Nat.le_of_lt h2]
              · have : ¬ wc.2 ≤ c2 := fun hle => h1 (Nat.le_antisymm hle (Nat.not_lt.mp h2))
                simp [hl, h1, h2, cwmScan, Nat.min_def, this]
      rw [hstep, ih]
      simp [sameCode, totalOf, Nat.add_assoc]

/-- C2 (amended): `compare_word_maps` adds `min(countA, countB)` to `same`
for words present in both maps and nothing (not `countA`) for words absent
from the other map, while every count is added to `total` from both scan
directions; the verdict is a match exactly when `same / total ≥ 0.90`
(stated over ℚ for positive `total`; at `total = 0` the source would raise
`ZeroDivisionError`). -/
theorem compare_word_maps_formula (m1 m2 : List (String × Nat)) :
    compare_word_maps m1 m2 =
      (decide (90 * (totalOf m1 + totalOf m2) ≤ (sameCode m1 m2 + sameCode m2 m1) * 100),
       sameCode m1 m2 + sameCode m2 m1, totalOf m1 + totalOf m2)
    ∧ (0 < totalOf m1 + totalOf m2 →
        ((compare_word_maps m1 m2).1 = true ↔
          (9 : ℚ) / 10 ≤
            ((sameCode m1 m2 + sameCode m2 m1 : Nat) : ℚ) /
              ((totalOf m1 + totalOf m2 : Nat) : ℚ))) := by
  have hmain : compare_word_maps m1 m2 =
      (decide (90 * (totalOf m1 + totalOf m2) ≤ (sameCode m1 m2 + sameCode m2 m1) * 100),
       sameCode m1 m2 + sameCode m2 m1, totalOf m1 + totalOf m2) := by
    unfold compare_word_maps
    simp only [cwmScan_eq]
    simp
  refine ⟨hmain, fun hpos => ?_⟩
  rw [hmain]
  simp only [decide_eq_true_eq]
  rw [div_le_div_iff (by norm_num) (by exact_mod_cast hpos)]
  constructor
  · intro h
    have h' : 9 * (totalOf m1 + totalOf m2) ≤ (sameCode m1 m2 + sameCode m2 m1) * 10 := by
      omega
    exact_mod_cast h'
  · intro h
    have h' : 9 * (totalOf m1 + totalOf m2) ≤ (sameCode m1 m2 + sameCode m2 m1) * 10 := by
      exact_mod_cast h
    omega

/-- Follows the claim's words for C2 (not the source): "for each word of A,
add min(countA, countB) to same when the word is present in B and countA to
same when it is absent from B, and add countA to total; then symmetrically";
match iff `same / total ≥ 0.90`. -/
def compare_word_maps_claimed (m1 m2 : List (String × Nat)) : Bool × Nat × Nat :=
  let sameDir : List (String × Nat) → List (String × Nat) → Nat := fun m other =>
    (m.map (fun wc =>
      match dictLookup other wc.1 with
      | none => wc.2
      | some c2 => min wc.2 c2)).sum
  let same := sameDir m1 m2 + sameDir m2 m1
  let total := totalOf m1 + totalOf m2
  (decide (90 * total ≤ same * 100), same, total)

/-- C2 counterexample: for the maps `{a:5}` and `{b:5}` the source computes
`same = 0, total = 10` and no match (the spec's own example says ratio 0%),
while the claim's formula ("add countA to same when absent from B") would
give `same = 10` and a 100% match. -/
theorem compare_word_maps_absent_counterexample :
    compare_word_maps [("a", 5)] [("b", 5)] = (false, 0, 10)
      ∧ compare_word_maps_claimed [("a", 5)] [("b", 5)] = (true, 10, 10)
      ∧ compare_word_maps [("a", 5)] [("b", 5)]
          ≠ compare_word_maps_claimed [("a", 5)] [("b", 5)] := by
  refine ⟨by rfl, by rfl, by decide⟩

/-- Witness for the amended C2: the spec's concrete example
`compareWordMaps({a:2,b:1}, {a:2,b:1})` gives `same = 6`, `total = 6`, a
match, and the ℚ-ratio reading agrees. -/
theorem compare_word_maps_formula_witness :
    compare_word_maps [("a", 2), ("b", 1)] [("a", 2), ("b", 1)] = (true, 6, 6)
      ∧ ((compare_word_maps [("a", 2), ("b", 1)] [("a", 2), ("b", 1)]).1 = true ↔
          (9 : ℚ) / 10 ≤ ((6 : Nat) : ℚ) / ((6 : Nat) : ℚ)) := by
  have h := compare_word_maps_formula [("a", 2), ("b", 1)] [("a", 2), ("b", 1)]
  refine ⟨h.1.trans (by rfl), ?_⟩
  have h2 := h.2 (by decide)
  exact h2

/-! Normalization: the dedup step, the no-shared-title invariant, and the
lowest-page-number-wins property. -/

/-- C3 counterexample: two entries with the same title and the SAME page
number.  The claim says the later entry is skipped entirely and the earlier
kept, but `seen[title] < pagenr` is false for equal page numbers, so the
code deletes the earlier entry and adopts the later one: the surviving
record carries the later entry's text and raw body. -/
theorem normalize_equal_pagenr_keeps_later :
    normalize_data [("g", [⟨"T", 100, ["a"], "r1"⟩, ⟨"T", 100, ["b"], "r2"⟩])] =
      some [(100, { title := "T", text := "b", raw := "r2" })]
    ∧ normalize_data [("g", [⟨"T", 100, ["a"], "r1"⟩, ⟨"T", 100, ["b"], "r2"⟩])] ≠
      some [(100, { title := "T", text := "a", raw := "r1" })] := by
  refine ⟨by rfl, by decide⟩

/-- C3 (amended): during normalization an entry whose title was already seen
is skipped — with the earlier record kept — exactly when the seen page
number is STRICTLY lower than the entry's; when the seen page number equals
the entry's page number, the previously kept record is removed and the later
entry's record is adopted in its place. -/
theorem normStep_skip_iff_strictly_lower
    (result : List (Nat × PageData)) (seen : List (String × Nat)) (e : Entry)
    (p : Nat) (hs : dictLookup seen e.title = some p) :
    (p < e.pagenr → normStep (result, seen) e = some (result, seen))
    ∧ (p = e.pagenr → (dictLookup result p).isSome = true →
        normStep (result, seen) e =
          some (dictInsert (dictDelete result p) e.pagenr (entryPageData e),
                dictInsert (dictDelete seen e.title) e.title e.pagenr)) := by
  constructor
  · intro hlt
    simp [normStep, hs, hlt]
  · intro heq hres
    subst heq
    cases hl : dictLookup result e.pagenr with
    | none => rw [hl] at hres; simp at hres
    | some v => simp [normStep, hs, hl, Nat.lt_irrefl, normAdopt]

/-- Witness for the amended C3: a strictly-lower seen page number skips the
entry; an equal seen page number replaces the kept record with the later
entry's. -/
theorem normStep_skip_iff_strictly_lower_witness :
    normStep ([(100, { title := "T", text := "a", raw := "r1" })], [("T", 100)])
        ⟨"T", 150, ["b"], "r2"⟩ =
      some ([(100, { title := "T", text := "a", raw := "r1" })], [("T", 100)])
    ∧ normStep ([(100, { title := "T", text := "a", raw := "r1" })], [("T", 100)])
        ⟨"T", 100, ["b"], "r2"⟩ =
      some ([(100, { title := "T", text := "b", raw := "r2" })], [("T", 100)]) := by
  have h1 := normStep_skip_iff_strictly_lower
    [(100, { title := "T", text := "a", raw := "r1" })] [("T", 100)]
    ⟨"T", 150, ["b"], "r2"⟩ 100 (by rfl)
  have h2 := normStep_skip_iff_strictly_lower
    [(100, { title := "T", text := "a", raw := "r1" })] [("T", 100)]
    ⟨"T", 100, ["b"], "r2"⟩ 100 (by rfl)
  exact ⟨h1.1 (by decide), (h2.2 rfl (by rfl)).trans (by rfl)⟩

/-- The invariant maintained by the normalization loop: the result map has
unique keys, and every kept record's title points (through `seen`) back to
the key it is stored under. -/
def NormInv (st : List (Nat × PageData) × List (String × Nat)) : Prop :=
  NodupKeys st.1 ∧ ∀ p e, (p, e) ∈ st.1 → dictLookup st.2 e.title = some p

theorem entryPageData_title (e : Entry) : (entryPageData e).title = e.title := rfl

theorem normStep_inv {result : List (Nat × PageData)} {seen : List (String × Nat)}
    {st' : List (Nat × PageData) × List (String × Nat)}
    {e : Entry} (hinv : NormInv (result, seen))
    (hstep : normStep (result, seen) e = some st') :
    NormInv st' := by
  obtain ⟨hnd, hmem⟩ := hinv
  cases hs : dictLookup seen e.title with
  | none =>
      have hred : normStep (result, seen) e = some (normAdopt result seen e) := by
        simp only [normStep]
        rw [hs]
      rw [hred] at hstep
      simp only [Option.some.injEq] at hstep
      subst hstep
      simp only [NormInv, normAdopt]
      refine ⟨nodupKeys_dictInsert _ _ hnd, ?_⟩
      intro p pd hp
      rcases mem_dictInsert hp with heq | hp'
      · obtain ⟨h1, h2⟩ := Prod.mk.injEq .. ▸ heq
        subst h1; subst h2
        rw [entryPageData_title]
        exact dictLookup_insert_self _ _ _
      · have htne : pd.title ≠ e.title := by
          intro hte
          have := hmem p pd hp'
          rw [hte, hs] at this
          cases this
        rw [dictLookup_insert_ne _ _ htne]
        exact hmem p pd hp'
  | some q =>
      have hred : normStep (result, seen) e =
          (if q < e.pagenr then some (result, seen)
           else
             match dictLookup result q with
             | none => none
             | some _ =>
                 some (normAdopt (dictDelete result q) (dictDelete seen e.title) e)) := by
        simp only [normStep]
        rw [hs]
      rw [hred] at hstep
      by_cases hlt : q < e.pagenr
      · rw [if_pos hlt] at hstep
        simp only [Option.some.injEq] at hstep
        subst hstep
        exact ⟨hnd, hmem⟩
      · rw [if_neg hlt] at hstep
        cases hr : dictLookup result q with
        | none => rw [hr] at hstep; cases hstep
        | some v =>
            rw [hr] at hstep
            simp only [Option.some.injEq] at hstep
            subst hstep
            simp only [NormInv, normAdopt]
            refine ⟨nodupKeys_dictInsert _ _ (nodupKeys_dictDelete _ hnd), ?_⟩
            intro p pd hp
            rcases mem_dictInsert hp with heq | hp'
            · obtain ⟨h1, h2⟩ := Prod.mk.injEq .. ▸ heq
              subst h1; subst h2
              rw [entryPageData_title]
              exact dictLookup_insert_self _ _ _
            · obtain ⟨hp'', hpq⟩ := mem_dictDelete hp'
              have hmem' := hmem p pd hp''
              have htne : pd.title ≠ e.title := by
                intro hte
                rw [hte, hs] at hmem'
                cases hmem'
                exact hpq rfl
              rw [dictLookup_insert_ne _ _ htne, dictLookup_delete_ne _ htne]
              exact hmem'

theorem normFold_inv :
    ∀ (l : List Entry) (st st' : List (Nat × PageData) × List (String × Nat)),
      NormInv st → normFold l st = some st' → NormInv st' := by
  intro l
  induction l with
  | nil =>
      intro st st' hinv h
      simp only [normFold, Option.some.injEq] at h
      exact h ▸ hinv
  | cons e rest ih =>
      intro st st' hinv h
      obtain ⟨res, sn⟩ := st
      simp only [normFold] at h
      cases hstep : normStep (res, sn) e with
      | none => rw [hstep] at h; cases h
      | some st1 =>
          rw [hstep] at h
          exact ih st1 st' (normStep_inv hinv hstep) h

theorem nodupKeys_mem_unique {α β : Type} [DecidableEq α] {d : List (α × β)}
    (h : NodupKeys d) {k : α} {v1 v2 : β}
    (h1 : (k, v1) ∈ d) (h2 : (k, v2) ∈ d) : v1 = v2 := by
  induction d with
  | nil => cases h1
  | cons kv rest ih =>
      obtain ⟨k', v'⟩ := kv
      simp only [NodupKeys, List.map_cons, List.nodup_cons] at h
      rcases List.mem_cons.mp h1 with he1 | ht1
      · rcases List.mem_cons.mp h2 with he2 | ht2
        · obtain ⟨_, hv1⟩ := Prod.mk.injEq .. ▸ he1
          obtain ⟨_, hv2⟩ := Prod.mk.injEq .. ▸ he2
          rw [hv1, hv2]
        · obtain ⟨hk1, _⟩ := Prod.mk.injEq .. ▸ he1
          exact absurd (hk1 ▸ (List.mem_map_of_mem Prod.fst ht2)) h.1
      · rcases List.mem_cons.mp h2 with he2 | ht2
        · obtain ⟨hk2, _⟩ := Prod.mk.injEq .. ▸ he2
          exact absurd (hk2 ▸ (List.mem_map_of_mem Prod.fst ht1)) h.1
        · exact ih h.2 ht1 ht2

/-- C6: every normalized snapshot satisfies the invariant that no two of its
entries share a title — two member records with equal titles are the same
record under the same page number. -/
theorem normalize_data_titles_distinct (data : SnapshotData)
    (r : List (Nat × PageData)) (h : normalize_data data = some r) :
    ∀ p1 e1 p2 e2, (p1, e1) ∈ r → (p2, e2) ∈ r → e1.title = e2.title →
      p1 = p2 ∧ e1 = e2 := by
  intro p1 e1 p2 e2 h1 h2 ht
  unfold normalize_data at h
  cases hg : normGroups data ([], []) with
  | none => rw [hg] at h; cases h
  | some st =>
      rw [hg] at h
      simp only [Option.map_some', Option.some.injEq] at h
      subst h
      rw [normGroups_eq_normFold] at hg
      have hinv : NormInv st :=
        normFold_inv _ ([], []) st ⟨List.nodup_nil, by intro p e hp; cases hp⟩ hg
      have hl1 := hinv.2 p1 e1 h1
      have hl2 := hinv.2 p2 e2 h2
      rw [ht] at hl1
      rw [hl1] at hl2
      obtain rfl : p1 = p2 := by cases hl2; rfl
      exact ⟨rfl, nodupKeys_mem_unique hinv.1 h1 h2⟩

/-- Witness for C6: a concrete snapshot with a duplicated title normalizes to
a single record, and the theorem applies to it. -/
theorem normalize_data_titles_distinct_witness :
    normalize_data [("g", [⟨"T", 150, ["a"], "rA"⟩, ⟨"T", 100, ["b"], "rB"⟩])] =
      some [(100, { title := "T", text := "b", raw := "rB" })]
    ∧ (100 = 100 ∧ ({ title := "T", text := "b", raw := "rB" } : PageData) =
        { title := "T", text := "b", raw := "rB" }) := by
  refine ⟨by rfl, ?_⟩
  exact normalize_data_titles_distinct
    [("g", [⟨"T", 150, ["a"], "rA"⟩, ⟨"T", 100, ["b"], "rB"⟩])]
    [(100, { title := "T", text := "b", raw := "rB" })] (by rfl)
    100 { title := "T", text := "b", raw := "rB" }
    100 { title := "T", text := "b", raw := "rB" }
    (by simp) (by simp) rfl

/-- C7 counterexample: an input containing the title-sharing entries
`("T", 100)` and `("T", 50)` plus a third entry `("U", 50)`.  The claim says
normalization keeps exactly the `("T", 50)` entry; in fact the later `"U"`
entry overwrites page key 50, so no record with title `"T"` survives at
all. -/
theorem normalize_third_entry_evicts_title :
    normalize_data
        [("g", [⟨"T", 100, ["a"], "rA"⟩, ⟨"T", 50, ["b"], "rB"⟩,
                ⟨"U", 50, ["c"], "rC"⟩])] =
      some [(50, { title := "U", text := "c", raw := "rC" })]
    ∧ ({ title := "U", text := "c", raw := "rC" } : PageData).title ≠ "T" := by
  refine ⟨by rfl, by decide⟩

/-- C7 (amended): for an input snapshot whose entries are exactly two entries
sharing a title with distinct page numbers, normalization keeps exactly the
entry with the numerically smaller page number — the same outcome in both
input orders, whether the two entries sit in one index group or are split
across groups (the hypothesis constrains only the concatenated entry
sequence). -/
theorem normalize_two_entries_keeps_lower (data : SnapshotData) (t : String)
    (p1 p2 : Nat) (l1 l2 : List String) (r1 r2 : String)
    (hlt : p1 < p2)
    (hflat : data.flatMap Prod.snd = [⟨t, p1, l1, r1⟩, ⟨t, p2, l2, r2⟩]
           ∨ data.flatMap Prod.snd = [⟨t, p2, l2, r2⟩, ⟨t, p1, l1, r1⟩]) :
    normalize_data data = some [(p1, entryPageData ⟨t, p1, l1, r1⟩)] := by
  unfold normalize_data
  rw [normGroups_eq_normFold]
  rcases hflat with hf | hf <;> rw [hf]
  · have h1 : normStep ([], []) ⟨t, p1, l1, r1⟩ =
        some ([(p1, entryPageData ⟨t, p1, l1, r1⟩)], [(t, p1)]) := by
      simp [normStep, dictLookup, normAdopt, dictInsert]
    have h2 : normStep ([(p1, entryPageData ⟨t, p1, l1, r1⟩)], [(t, p1)])
        ⟨t, p2, l2, r2⟩ =
        some ([(p1, entryPageData ⟨t, p1, l1, r1⟩)], [(t, p1)]) := by
      simp [normStep, dictLookup, hlt]
    simp [normFold, h1, h2]
  · have h1 : normStep ([], []) ⟨t, p2, l2, r2⟩ =
        some ([(p2, entryPageData ⟨t, p2, l2, r2⟩)], [(t, p2)]) := by
      simp [normStep, dictLookup, normAdopt, dictInsert]
    have h2 : normStep ([(p2, entryPageData ⟨t, p2, l2, r2⟩)], [(t, p2)])
        ⟨t, p1, l1, r1⟩ =
        some ([(p1, entryPageData ⟨t, p1, l1, r1⟩)], [(t, p1)]) := by
      have hnlt : ¬ p2 < p1 := Nat.lt_asymm hlt
      simp [normStep, dictLookup, hnlt, normAdopt, dictDelete, dictInsert]
    simp [normFold, h1, h2]

/-- Witness for the amended C7: the two title-sharing entries arrive in two
separate index groups, higher page number first; the lower one is kept. -/
theorem normalize_two_entries_keeps_lower_witness :
    normalize_data [("g1", [⟨"T", 150, ["a"], "rA"⟩]), ("g2", [⟨"T", 100, ["b"], "rB"⟩])] =
      some [(100, { title := "T", text := "b", raw := "rB" })] := by
  have h := normalize_two_entries_keeps_lower
    [("g1", [⟨"T", 150, ["a"], "rA"⟩]), ("g2", [⟨"T", 100, ["b"], "rB"⟩])]
    "T" 100 150 ["b"] ["a"] "rB" "rA" (by decide) (Or.inr (by rfl))
  exact h.trans (by rfl)

/-! Post-State Store algebra. -/

/-- C9: on the Post-State Store, `get` after `set` returns the stored id;
`get` after a subsequent `clear` returns `none`; `clear` of an absent entry
is a no-op; `clear` never leaves an empty inner mapping behind (the title
key is removed when its inner mapping empties); and the page number is
coerced to its string form, so an integer key and its string form address
the same entry in all three operations. -/
theorem post_state_store_algebra (s : PostState) (t : String) (p : PyKey)
    (i : String) :
    get_state (set_state s t p i) t p = some i
    ∧ get_state (clear_state (set_state s t p i) t p) t p = none
    ∧ (get_state s t p = none → clear_state s t p = s)
    ∧ ((∀ t' inner, dictLookup s t' = some inner → inner ≠ []) →
        ∀ t' inner, dictLookup (clear_state s t p) t' = some inner → inner ≠ [])
    ∧ (∀ n : Nat,
        get_state s t (PyKey.int n) = get_state s t (PyKey.str (toString n))
        ∧ set_state s t (PyKey.int n) i = set_state s t (PyKey.str (toString n)) i
        ∧ clear_state s t (PyKey.int n) = clear_state s t (PyKey.str (toString n))) := by
  refine ⟨?_, ?_, ?_, ?_, fun n => ⟨rfl, rfl, rfl⟩⟩
  · cases hl : dictLookup s t with
    | none =>
        simp only [set_state, hl, get_state, dictLookup_insert_self]
        simp [dictLookup]
    | some inner =>
        simp only [set_state, hl, get_state, dictLookup_insert_self]
  · cases hl : dictLookup s t with
    | none =>
        simp only [set_state, hl]
        have h1 := dictLookup_insert_self s t [(pyStr p, i)]
        simp only [clear_state, h1, dictLookup, if_pos rfl]
        simp only [dictDelete, if_pos rfl, List.length_nil, if_true, get_state,
          dictLookup_delete_self]
    | some inner =>
        simp only [set_state, hl]
        have h1 := dictLookup_insert_self s t (dictInsert inner (pyStr p) i)
        simp only [clear_state, h1, dictLookup_insert_self]
        by_cases h2 : (dictDelete (dictInsert inner (pyStr p) i) (pyStr p)).length = 0
        · simp only [h2, if_true, get_state, dictLookup_delete_self]
        · simp only [h2, if_false, get_state, dictLookup_insert_self,
            dictLookup_delete_self]
  · intro hg
    cases hl : dictLookup s t with
    | none => simp [clear_state, hl]
    | some inner =>
        simp only [get_state, hl] at hg
        simp [clear_state, hl, hg]
  · intro hcl t' inner' h'
    cases hl : dictLookup s t with
    | none =>
        simp only [clear_state, hl] at h'
        exact hcl t' inner' h'
    | some inner =>
        cases hip : dictLookup inner (pyStr p) with
        | none =>
            simp only [clear_state, hl, hip] at h'
            exact hcl t' inner' h'
        | some xi =>
            simp only [clear_state, hl, hip] at h'
            by_cases h2 : (dictDelete inner (pyStr p)).length = 0
            · rw [if_pos h2] at h'
              by_cases ht : t' = t
              · subst ht
                rw [dictLookup_delete_self] at h'
                cases h'
              · rw [dictLookup_delete_ne _ ht] at h'
                exact hcl t' inner' h'
            · rw [if_neg h2] at h'
              by_cases ht : t' = t
              · subst ht
                rw [dictLookup_insert_self] at h'
                simp only [Option.some.injEq] at h'
                subst h'
                intro hnil
                rw [hnil] at h2
                exact h2 rfl
              · rw [dictLookup_insert_ne _ _ ht] at h'
                exact hcl t' inner' h'

/-- Witness for C9 at concrete inputs: set/get/clear round trip, no-op clear,
no empty inner map left behind, and int/str key coercion agreeing. -/
theorem post_state_store_algebra_witness :
    get_state (set_state stateWeer "T" (PyKey.int 5) "9") "T" (PyKey.int 5) = some "9"
    ∧ get_state (clear_state (set_state stateWeer "T" (PyKey.int 5) "9") "T"
        (PyKey.int 5)) "T" (PyKey.int 5) = none
    ∧ clear_state stateWeer "T" (PyKey.int 5) = stateWeer
    ∧ (∀ t' inner, dictLookup (clear_state stateWeer "Weer" (PyKey.int 101)) t' =
        some inner → inner ≠ [])
    ∧ get_state stateWeer "Weer" (PyKey.int 101) =
        get_state stateWeer "Weer" (PyKey.str "101") := by
  have h1 := post_state_store_algebra stateWeer "T" (PyKey.int 5) "9"
  have h2 := post_state_store_algebra stateWeer "Weer" (PyKey.int 101) "9"
  have hclean : ∀ t' inner, dictLookup stateWeer t' = some inner → inner ≠ [] := by
    intro t' inner h
    simp only [stateWeer, dictLookup] at h
    split at h
    · simp only [Option.some.injEq] at h
      subst h
      simp
    · cases h
  exact ⟨h1.1, h1.2.1, h1.2.2.1 (by rfl), h2.2.2.2.1 hclean, (h2.2.2.2.2 101).1⟩

/-! The fuzzy matcher: candidate order versus the exact-title shortcut. -/

theorem fmpLoop_some_gwm (data : PageData) (l : List (Nat × PageData)) :
    fmpLoop data (some (generate_word_map data.text)) l = fmpLoop data none l := by
  cases l with
  | nil => rfl
  | cons kv rest =>
      obtain ⟨q, pd⟩ := kv
      simp only [fmpLoop, ite_self]

/-- C1 counterexample: the old entry has title `"T"` and text `"alpha beta"`;
candidate 101 (title `"U"`, identical text, 100% overlap) precedes candidate
102, whose title equals `"T"` exactly and is not ambiguous.  The matcher
returns 101, not the exact-title candidate 102: the loop tests each
candidate's title and overlap in iteration order, so an earlier candidate
over the threshold wins over a later exact-title match. -/
theorem find_matching_page_overlap_beats_later_exact :
    find_matching_page { title := "T", text := "alpha beta", raw := "r" }
        [(101, { title := "U", text := "alpha beta", raw := "r2" }),
         (102, { title := "T", text := "gamma delta", raw := "r3" })] = some 101
    ∧ ({ title := "T", text := "gamma delta", raw := "r3" } : PageData).title = "T"
    ∧ ambiguousTitle "T" = false
    ∧ (101 : Nat) ≠ 102 := by
  refine ⟨by rfl, by rfl, by rfl, by decide⟩

/-- C1 (amended): the matcher returns the page number of the first candidate,
in the newer snapshot's iteration order, that either bears the old entry's
exact title (with the title not matching the ambiguous-title exclusion) or
reaches the 90% overlap threshold.  Hence an exact-title candidate is
returned — without its overlap being computed — whenever no earlier
candidate exactly matches or reaches the threshold; it does not take
priority over an earlier candidate that reaches the threshold. -/
theorem find_matching_page_first_hit (data : PageData)
    (l1 l2 : List (Nat × PageData)) (p : Nat) (pd : PageData)
    (hex : pd.title = data.title) (hna : ambiguousTitle data.title = false)
    (hearlier : ∀ q qd, (q, qd) ∈ l1 →
        qd.title ≠ data.title
        ∧ (compare_word_maps (generate_word_map data.text)
            (generate_word_map qd.text)).1 = false) :
    find_matching_page data (l1 ++ (p, pd) :: l2) = some p := by
  unfold find_matching_page
  induction l1 with
  | nil => simp [fmpLoop, hex, hna]
  | cons kv rest ih =>
      obtain ⟨q, qd⟩ := kv
      have hhead := hearlier q qd (List.mem_cons_self _ _)
      simp only [List.cons_append, fmpLoop, hhead.1, false_and, if_false, ite_self,
        hhead.2, fmpLoop_some_gwm]
      exact ih fun q' qd' hq' => hearlier q' qd' (List.mem_cons_of_mem _ hq')

def pdOld : PageData := { title := "T", text := "alpha beta", raw := "r" }

/-- Witness for the amended C1: one earlier candidate with a different title
and overlap below the threshold, then the exact-title candidate — the
matcher returns the exact-title candidate's page number. -/
theorem find_matching_page_first_hit_witness :
    find_matching_page pdOld
        [(101, { title := "U", text := "x y", raw := "r1" }),
         (102, { title := "T", text := "gamma delta", raw := "r3" })] = some 102 := by
  have h := find_matching_page_first_hit pdOld
    [(101, { title := "U", text := "x y", raw := "r1" })] []
    102 { title := "T", text := "gamma delta", raw := "r3" } (by rfl) (by rfl)
    (by
      intro q qd hq
      simp only [List.mem_singleton] at hq
      obtain ⟨h1, h2⟩ := Prod.mk.injEq .. ▸ hq
      subst h1; subst h2
      exact ⟨by decide, by rfl⟩)
  exact h

/-! Diff generation: preprocessing, empty diff on equal inputs, context
width. -/

theorem strLength_pos {s : String} (h : s ≠ "") : 0 < s.length := by
  cases s with
  | mk data =>
      cases data with
      | nil => exact absurd rfl h
      | cons c cs => simp [String.length]

theorem strLength_zero {s : String} (h : s.length = 0) : s = "" := by
  cases s with
  | mk data =>
      cases data with
      | nil => rfl
      | cons c cs => simp [String.length] at h

theorem resLoop_true :
    ∀ (rev acc : List String), (resLoop true rev acc).2 = acc ++ rev.map rstrip := by
  intro rev
  induction rev with
  | nil => intro acc; simp [resLoop]
  | cons l rest ih =>
      intro acc
      simp only [resLoop, Bool.true_eq_false, false_and, if_false, if_true]
      rw [ih]
      simp

theorem resLoop_false :
    ∀ (rev acc : List String),
      (resLoop false rev acc).2 =
        acc ++ (rev.dropWhile (fun l => rstrip l == "")).map rstrip := by
  intro rev
  induction rev with
  | nil => intro acc; simp [resLoop]
  | cons l rest ih =>
      intro acc
      by_cases he : rstrip l = ""
      · have hlen : ¬ 0 < (rstrip l).length := by
          rw [he]; simp [String.length]
        have hbe : (rstrip l == "") = true := by simp [he]
        simp only [resLoop, hlen, and_false, if_false, Bool.false_eq_true,
          List.dropWhile_cons, hbe, if_true]
        exact ih acc
      · have hlen : 0 < (rstrip l).length := strLength_pos he
        have hbe : (rstrip l == "") = false := by simp [he]
        simp only [resLoop, hlen, and_true, if_true, List.dropWhile_cons, hbe,
          Bool.false_eq_true, if_false]
        rw [resLoop_true]
        simp

/-- `remove_extra_spaces` in the spec's form: rstrip every line, then drop
the trailing run of now-empty lines. -/
theorem remove_extra_spaces_spec (lines : List String) :
    remove_extra_spaces lines =
      (((lines.map rstrip).reverse.dropWhile (fun l => l == "")).reverse) := by
  unfold remove_extra_spaces
  rw [resLoop_false]
  rw [← List.map_reverse]
  rw [List.dropWhile_map]
  simp [Function.comp_def]

theorem commonPrefixLen_self (a : List String) : commonPrefixLen a a = a.length := by
  induction a with
  | nil => rfl
  | cons x rest ih => simp [commonPrefixLen, ih]

theorem get_opcodes_self (a : List String) :
    get_opcodes a a =
      if 0 < a.length then [⟨DTag.equal, 0, a.length, 0, a.length⟩] else [] := by
  unfold get_opcodes
  simp [commonPrefixLen_self, List.drop_length, commonSuffixLen, commonPrefixLen]

theorem groupLoop_single_equal (n : Nat) (c : Opcode) (h : c.tag = DTag.equal)
    (h2 : ¬ 2 * n < c.i2 - c.i1) : groupLoop n [] [c] = [] := by
  unfold groupLoop
  rw [if_neg (by exact fun hc => h2 hc.2)]
  simp only [List.nil_append]
  unfold groupLoop
  simp [h]

theorem unified_diff_self (a : List String) (f1 f2 d1 d2 : String) :
    unified_diff a a f1 f2 d1 d2 1 = [] := by
  have hgroups : get_grouped_opcodes 1 (get_opcodes a a) = [] := by
    rw [get_opcodes_self]
    by_cases h : 0 < a.length
    · rw [if_pos h]
      unfold get_grouped_opcodes pretrimCodes
      simp only [List.cons_ne_self, if_false]
      have htrim :
          trimLast 1 (trimHead 1 [⟨DTag.equal, 0, a.length, 0, a.length⟩]) =
            [⟨DTag.equal, a.length - 1, a.length, a.length - 1, a.length⟩] := by
        unfold trimHead trimLast
        simp only [if_pos rfl, List.getLast?_singleton, List.dropLast_single]
        have h1 : max 0 (a.length - 1) = a.length - 1 := by omega
        have h2 : min a.length (a.length - 1 + 1) = a.length := by omega
        simp [h1, h2]
      rw [htrim]
      exact groupLoop_single_equal 1 _ rfl (by simp; omega)
    · rw [if_neg h]
      rfl
  unfold unified_diff
  rw [hgroups]

/-- The prefix/suffix matcher's opcodes decompose as an optional leading
`equal`, an optional middle non-`equal`, and an optional trailing `equal`. -/
theorem get_opcodes_shape (a b : List String) :
    ∃ hd mid tl : List Opcode,
      get_opcodes a b = hd ++ mid ++ tl
      ∧ (∀ c ∈ hd, c.tag = DTag.equal) ∧ (∀ c ∈ tl, c.tag = DTag.equal)
      ∧ (∀ c ∈ mid, c.tag ≠ DTag.equal)
      ∧ hd.length ≤ 1 ∧ mid.length ≤ 1 ∧ tl.length ≤ 1 := by
  unfold get_opcodes
  refine ⟨_, _, _, rfl, ?_, ?_, ?_, ?_, ?_, ?_⟩ <;>
    split_ifs <;> simp_all

theorem len_le_one_cases {α : Type} (l : List α) (h : l.length ≤ 1) :
    l = [] ∨ ∃ x, l = [x] := by
  cases l with
  | nil => exact Or.inl rfl
  | cons x rest =>
      cases rest with
      | nil => exact Or.inr ⟨x, rfl⟩
      | cons y r => simp at h

/-- After the end trimming, every `equal` opcode spans at most `n` lines on
both sides (interior opcodes are never `equal` for the prefix/suffix
matcher). -/
theorem pretrim_equal_spans (n : Nat) (a b : List String) (c : Opcode)
    (hmem : c ∈ pretrimCodes n (get_opcodes a b)) (heq : c.tag = DTag.equal) :
    c.i2 - c.i1 ≤ n ∧ c.j2 - c.j1 ≤ n := by
  obtain ⟨hd, mid, tl, hsh, hhd, htl, hmid, hl1, hl2, hl3⟩ := get_opcodes_shape a b
  rw [hsh] at hmem
  clear hsh
  rcases len_le_one_cases hd hl1 with rfl | ⟨e, rfl⟩ <;>
    rcases len_le_one_cases mid hl2 with rfl | ⟨m, rfl⟩ <;>
      rcases len_le_one_cases tl hl3 with rfl | ⟨t, rfl⟩
  · -- []: fallback single equal opcode, trimmed on both ends
    simp only [List.append_nil] at hmem
    unfold pretrimCodes at hmem
    rw [if_pos rfl] at hmem
    simp [trimHead, trimLast] at hmem
    subst hmem
    constructor <;> simp <;> omega
  · -- [t]
    have ht := htl t (by simp)
    simp only [List.nil_append] at hmem
    unfold pretrimCodes at hmem
    rw [if_neg (by simp)] at hmem
    simp [trimHead, trimLast, ht] at hmem
    subst hmem
    constructor <;> simp <;> omega
  · -- [m]
    have hm := hmid m (by simp)
    simp only [List.nil_append, List.append_nil] at hmem
    unfold pretrimCodes at hmem
    rw [if_neg (by simp)] at hmem
    simp [trimHead, trimLast, hm] at hmem
    subst hmem
    exact absurd heq hm
  · -- [m, t]
    have hm := hmid m (by simp)
    have ht := htl t (by simp)
    simp only [List.nil_append] at hmem
    unfold pretrimCodes at hmem
    rw [if_neg (by simp)] at hmem
    simp [trimHead, trimLast, hm, ht] at hmem
    rcases hmem with rfl | rfl
    · exact absurd heq hm
    · constructor <;> simp <;> omega
  · -- [e]
    have he := hhd e (by simp)
    simp only [List.append_nil] at hmem
    unfold pretrimCodes at hmem
    rw [if_neg (by simp)] at hmem
    simp [trimHead, trimLast, he] at hmem
    subst hmem
    constructor <;> simp <;> omega
  · -- [e, t]
    have he := hhd e (by simp)
    have ht := htl t (by simp)
    simp only [List.nil_append, List.cons_append] at hmem
    unfold pretrimCodes at hmem
    rw [if_neg (by simp)] at hmem
    simp [trimHead, trimLast, he, ht] at hmem
    rcases hmem with rfl | rfl
    · constructor <;> simp <;> omega
    · constructor <;> simp <;> omega
  · -- [e, m]
    have he := hhd e (by simp)
    have hm := hmid m (by simp)
    simp only [List.append_nil, List.cons_append] at hmem
    unfold pretrimCodes at hmem
    rw [if_neg (by simp)] at hmem
    simp [trimHead, trimLast, he, hm] at hmem
    rcases hmem with rfl | rfl
    · constructor <;> simp <;> omega
    · exact absurd heq hm
  · -- [e, m, t]
    have he := hhd e (by simp)
    have hm := hmid m (by simp)
    have ht := htl t (by simp)
    simp only [List.cons_append, List.nil_append] at hmem
    unfold pretrimCodes at hmem
    rw [if_neg (by simp)] at hmem
    simp [trimHead, trimLast, he, hm, ht] at hmem
    rcases hmem with rfl | rfl | rfl
    · constructor <;> simp <;> omega
    · exact absurd heq hm
    · constructor <;> simp <;> omega

/-- Context bound through the grouping loop: if every `equal` opcode in the
pending group and in the remaining opcodes spans at most `n` lines, so does
every `equal` opcode inside every emitted hunk. -/
theorem groupLoop_equal_spans (n : Nat) :
    ∀ (codes group : List Opcode),
      (∀ c ∈ codes, c.tag = DTag.equal → c.i2 - c.i1 ≤ n ∧ c.j2 - c.j1 ≤ n) →
      (∀ c ∈ group, c.tag = DTag.equal → c.i2 - c.i1 ≤ n ∧ c.j2 - c.j1 ≤ n) →
      ∀ g ∈ groupLoop n group codes, ∀ c ∈ g, c.tag = DTag.equal →
        c.i2 - c.i1 ≤ n ∧ c.j2 - c.j1 ≤ n := by
  intro codes
  induction codes with
  | nil =>
      intro group _ hg g hgmem c hcm hceq
      cases group with
      | nil => simp [groupLoop] at hgmem
      | cons x rest =>
          cases rest with
          | nil =>
              by_cases hx : x.tag = DTag.equal
              · simp [groupLoop, hx] at hgmem
              · simp only [groupLoop, hx, if_false, List.mem_singleton] at hgmem
                subst hgmem
                exact hg c hcm hceq
          | cons y r =>
              simp only [groupLoop, List.mem_singleton] at hgmem
              subst hgmem
              exact hg c hcm hceq
  | cons c0 rest ih =>
      intro group hc hg g hgmem c hcm hceq
      have hcond : ¬ (c0.tag = DTag.equal ∧ 2 * n < c0.i2 - c0.i1) := by
        rintro ⟨h1, h2⟩
        have := (hc c0 (by simp) h1).1
        omega
      simp only [groupLoop, if_neg hcond] at hgmem
      refine ih (group ++ [c0]) (fun d hm hd => hc d (List.mem_cons_of_mem _ hm) hd)
        (fun d hm hd => ?_) g hgmem c hcm hceq
      rcases List.mem_append.mp hm with h | h
      · exact hg d h hd
      · rw [List.mem_singleton] at h
        subst h
        exact hc d (by simp) hd

/-- C8: diff preprocessing splits each text on newline, strips trailing
whitespace from every line, and drops the trailing run of now-empty lines
from the end; two texts whose preprocessed line lists coincide (such as
`"x\n\n\n"` and `"x\n"`, both `["x"]`) produce an empty diff — no hunks, the
empty string; and any non-empty diff uses a context window of exactly one
line: every `equal` (context) opcode inside any emitted hunk spans at most
one line on each side. -/
theorem generate_diff_spec (opts : Opts) :
    (∀ lines, remove_extra_spaces lines =
       ((lines.map rstrip).reverse.dropWhile (fun l => l == "")).reverse)
    ∧ (∀ t1 t2, remove_extra_spaces (pySplitNL t1) = remove_extra_spaces (pySplitNL t2) →
        generate_diff opts t1 t2 = "")
    ∧ (∀ a b g c, g ∈ get_grouped_opcodes 1 (get_opcodes a b) → c ∈ g →
        c.tag = DTag.equal → c.i2 - c.i1 ≤ 1 ∧ c.j2 - c.j1 ≤ 1) := by
  refine ⟨remove_extra_spaces_spec, fun t1 t2 h => ?_, fun a b g c hg hc hceq => ?_⟩
  · simp only [generate_diff, h, unified_diff_self]
    rfl
  · unfold get_grouped_opcodes at hg
    exact groupLoop_equal_spans 1 (pretrimCodes 1 (get_opcodes a b)) []
      (fun d hm hd => pretrim_equal_spans 1 a b d hm hd)
      (fun d hm => absurd hm (List.not_mem_nil d)) g hg c hc hceq

/-- Witness for C8: concrete preprocessing, the spec's own empty-diff
example, and a one-line context hunk of a concrete non-empty diff. -/
theorem generate_diff_spec_witness :
    remove_extra_spaces ["x ", " ", ""] = ["x"]
    ∧ generate_diff optsLive "x\n\n\n" "x\n" = ""
    ∧ ((1 : Nat) - 0 ≤ 1 ∧ (1 : Nat) - 0 ≤ 1) := by
  have h := generate_diff_spec optsLive
  refine ⟨(h.1 ["x ", " ", ""]).trans (by rfl), h.2.1 "x\n\n\n" "x\n" (by rfl), ?_⟩
  have hgroups : get_grouped_opcodes 1 (get_opcodes ["a", "b", "c"] ["a", "X", "c"]) =
      [[⟨DTag.equal, 0, 1, 0, 1⟩, ⟨DTag.replace, 1, 2, 1, 2⟩, ⟨DTag.equal, 2, 3, 2, 3⟩]] := by
    rfl
  exact h.2.2 ["a", "b", "c"] ["a", "X", "c"]
    [⟨DTag.equal, 0, 1, 0, 1⟩, ⟨DTag.replace, 1, 2, 1, 2⟩, ⟨DTag.equal, 2, 3, 2, 3⟩]
    ⟨DTag.equal, 0, 1, 0, 1⟩ (hgroups ▸ List.mem_singleton.mpr rfl) (by simp) rfl

end TT
